import Mathlib

/-!
Verification development for the onchain-codework enrichment pipeline.

The repository holds two drivers of one pipeline shape:
* `src/tools/get_code.js` — the fetch stage: for each address, query a
  block-explorer API (`fetchContractSource`) under a batch rate limiter and
  append a row per successfully fetched source.
* the classification stage (`src/unnamed/part_000`, second file): for each
  record, skip already-processed addresses, skip too-short code, skip in-run
  duplicate code, otherwise wait on an interval rate limiter, call the
  model (`getArtisticScoreAndReason`) and append one row.

All definitions below are shallow embeddings of those two files.  External
services are oracles passed in as functions; wall-clock time is made explicit
as rational milliseconds; per-call latency is an oracle `dur`.
-/

namespace OnchainCodework

/-! ### JS string helpers -/

/-- Embeds `String.prototype.replace(/\r?\n/g, "\\n")` at the character-list
level: each `"\r\n"` or `"\n"` becomes the two characters `\` `n`
(get_code.js line 137, part_000 line 212). -/
def escChars : List Char → List Char
  | [] => []
  | c :: rest =>
    if c = '\n' then '\\' :: 'n' :: escChars rest
    else if c = '\r' then
      match rest with
      | '\n' :: rest2 => '\\' :: 'n' :: escChars rest2
      | other => c :: escChars other
    else c :: escChars rest

/-- `code.replace(/\r?\n/g, "\\n")` on strings. -/
def escapeNewlines (s : String) : String :=
  String.mk (escChars s.toList)

/-- JS whitespace for `String.prototype.trim` and `parseInt`: ECMAScript
WhiteSpace and LineTerminator code points. -/
def isJsWhitespace (c : Char) : Bool :=
  c = ' ' ∨ c = '\t' ∨ c = '\n' ∨ c = '\x0b' ∨ c = '\x0c' ∨ c = '\x0d' ∨
  c = '\xa0' ∨ c = '\u1680' ∨ ('\u2000' ≤ c ∧ c ≤ '\u200a') ∨
  c = '\u2028' ∨ c = '\u2029' ∨ c = '\u202f' ∨ c = '\u205f' ∨
  c = '\u3000' ∨ c = '\ufeff'

/-- Embeds JS `s.trim()`: strip leading and trailing JS whitespace. -/
def jsTrim (s : String) : String :=
  String.mk
    (((s.toList.dropWhile isJsWhitespace).reverse.dropWhile
        isJsWhitespace).reverse)

/-- Embeds JS `s.split("|")` at the character-list level: split at every
pipe, keeping empty pieces (`"".split("|")` is `[""]`). -/
def jsSplitPipe : List Char → List (List Char)
  | [] => [[]]
  | c :: rest =>
    if c = '|' then [] :: jsSplitPipe rest
    else
      match jsSplitPipe rest with
      | [] => [[c]]
      | h :: t => (c :: h) :: t

/-- `s.split("|")` on strings. -/
def splitPipe (s : String) : List String :=
  (jsSplitPipe s.toList).map String.mk

/-- Numeric value of a decimal digit character. -/
def digitVal (c : Char) : Nat := c.toNat - '0'.toNat

/-- Value of a list of decimal digits, most significant first. -/
def digitsToNat (ds : List Char) : Nat :=
  ds.foldl (fun acc c => acc * 10 + digitVal c) 0

/-- Core of `parseInt(s, 10)`: longest leading run of decimal digits,
`none` when there is no digit (JS `NaN`). -/
def jsParseIntCore (cs : List Char) (sign : Int) : Option Int :=
  let ds := cs.takeWhile Char.isDigit
  if ds.isEmpty then none else some (sign * (digitsToNat ds : Int))

/-- Embeds JS `parseInt(s, 10)` (part_000 line 92): skip surrounding
whitespace, optional sign, longest decimal-digit prefix; `none` models `NaN`. -/
def jsParseInt (s : String) : Option Int :=
  match (jsTrim s).toList with
  | '-' :: rest => jsParseIntCore rest (-1)
  | '+' :: rest => jsParseIntCore rest 1
  | cs => jsParseIntCore cs 1

/-! ### Classification adapter (part_000, `getArtisticScoreAndReason`) -/

/-- Outcome of one OpenAI chat-completions call as seen by the `try` block:
either a reply text (`response.choices[0].message.content`) or a thrown
error (network fault, timeout, throttle — anything the SDK raises). -/
inductive ClassifyResp where
  | ok (text : String)
  | err (msg : String)
deriving DecidableEq

/-- Embeds `getArtisticScoreAndReason` (part_000 lines 50–105) applied to one
service outcome.  A thrown error is caught and mapped to `(none, "")`
(lines 101–104) — the function performs no retry; it consumes exactly one
response.  On a reply, the text is trimmed, split on `"|"`, each part
trimmed; wrong field count, unparsable score or score outside `[1,3]`
yield `(none, "")` (lines 84–98). -/
def getArtisticScoreAndReason : ClassifyResp → Option Int × String
  | .err _ => (none, "")
  | .ok text =>
    let parts := (splitPipe (jsTrim text)).map (fun p => jsTrim p)
    match parts with
    | [p0, p1] =>
      match jsParseInt p0 with
      | none => (none, "")
      | some n => if n < 1 ∨ 3 < n then (none, "") else (some n, p1)
    | _ => (none, "")

/-! ### Fetch adapter (get_code.js, `fetchContractSource`) -/

/-- One iteration's observable outcome of the Etherscan call inside
`fetchContractSource` (get_code.js lines 39–69):
`httpErr` = `!response.ok`; `notOk` = `data.message === "NOTOK"` (throttle);
`netErr` = thrown network error; `badFormat` = `data.result` not a non-empty
array; `result sc` = first element's `SourceCode` field. -/
inductive FetchResp where
  | httpErr
  | notOk
  | netErr
  | badFormat
  | result (sourceCode : String)
deriving DecidableEq

/-- Embeds the `while (true)` retry loop of `fetchContractSource`
(get_code.js lines 39–69) run against a finite trace of service outcomes.
Returns `(some r, t)` when the loop returns value `r` after sleeping `t`
milliseconds of backoff, and `(none, t)` when the trace is exhausted while
the loop is still retrying (the loop never returns on transient failures:
HTTP error and throttle back off 3000 ms, a network error 10000 ms). -/
def fetchContractSource : List FetchResp → Option (Option String) × Nat
  | [] => (none, 0)
  | .httpErr :: rest =>
    let p := fetchContractSource rest
    (p.1, 3000 + p.2)
  | .notOk :: rest =>
    let p := fetchContractSource rest
    (p.1, 3000 + p.2)
  | .netErr :: rest =>
    let p := fetchContractSource rest
    (p.1, 10000 + p.2)
  | .badFormat :: _ => (some none, 0)
  | .result sc :: _ =>
    let s := jsTrim sc
    (some (if s = "" ∨ s = "0x" then none else some s), 0)

/-! ### Classification driver (part_000, `main`) -/

/-- `MIN_CODE_LENGTH` (part_000 line 46). -/
def MIN_CODE_LENGTH : Nat := 20

/-- One input row of the classification stage (columns of the input CSV). -/
structure CRecord where
  block_number : String
  address : String
  is_erc20 : String
  is_erc721 : String
  code : String
deriving DecidableEq

/-- One output row of the classification stage (the eight CSV columns;
`artistic_score` is the written cell, `""` for a null score). -/
structure CRow where
  block_number : String
  address : String
  is_erc20 : String
  is_erc721 : String
  code : String
  artistic_score : String
  artistic_reason : String
  duplicate_of_address : String
deriving DecidableEq

/-- Cell written for a score (`score === null ? "" : score`, part_000
line 213). -/
def scoreCell : Option Int → String
  | none => ""
  | some n => toString n

/-- The `TOO_SHORT` placeholder row (part_000 lines 163–174). -/
def shortRow (r : CRecord) : CRow :=
  { block_number := r.block_number, address := r.address,
    is_erc20 := r.is_erc20, is_erc721 := r.is_erc721,
    code := "", artistic_score := "", artistic_reason := "",
    duplicate_of_address := "TOO_SHORT" }

/-- The duplicate-content placeholder row (part_000 lines 181–192). -/
def dupRow (r : CRecord) (orig : String) : CRow :=
  { block_number := r.block_number, address := r.address,
    is_erc20 := r.is_erc20, is_erc721 := r.is_erc721,
    code := "", artistic_score := "", artistic_reason := "",
    duplicate_of_address := orig }

/-- The real enrichment row (part_000 lines 206–217). -/
def enrichRow (r : CRecord) (score : Option Int) (reason : String) : CRow :=
  { block_number := r.block_number, address := r.address,
    is_erc20 := r.is_erc20, is_erc721 := r.is_erc721,
    code := escapeNewlines r.code, artistic_score := scoreCell score,
    artistic_reason := reason, duplicate_of_address := "" }

/-- Embeds the JS truthiness test `if (processedCodes[code])` over the
`processedCodes` object, represented as an assignment history with the most
recent assignment first (property assignment overwrites, so only the head
binding for a code counts; an empty-string value is falsy). -/
def lookupTruthy : List (String × String) → String → Option String
  | [], _ => none
  | (c, v) :: rest, key =>
    if c = key then (if v = "" then none else some v) else lookupTruthy rest key

/-- Mutable state of the classification `main` loop: the `processedAddresses`
set, the `processedCodes` object, the rows appended to the output this run,
the contents sent to the service, the dispatch times of those calls, the
wall clock (ms) and `lastRequestTime`. -/
structure CState where
  processedAddresses : List String
  processedCodes : List (String × String)
  rows : List CRow
  calls : List String
  dispatches : List ℚ
  clock : ℚ
  lastRequestTime : ℚ
deriving DecidableEq

/-- Time at which the next call is dispatched: the loop sleeps
`intervalMs - elapsed` when `elapsed < intervalMs` (part_000 lines 196–200),
so dispatch happens at `max clock (lastRequestTime + g)`. -/
def dispatchTime (g : ℚ) (s : CState) : ℚ :=
  max s.clock (s.lastRequestTime + g)

/-- State after the enrichment branch (part_000 lines 196–221): wait on the
limiter, call the service, append the real row, record the address and the
code, and set `lastRequestTime` to the completion time (line 204). -/
def enrichState (svc : String → ClassifyResp) (dur : String → ℚ) (g : ℚ)
    (s : CState) (r : CRecord) : CState :=
  let res := getArtisticScoreAndReason (svc r.code)
  { processedAddresses := s.processedAddresses ++ [r.address]
    processedCodes := (r.code, r.address) :: s.processedCodes
    rows := s.rows ++ [enrichRow r res.1 res.2]
    calls := s.calls ++ [r.code]
    dispatches := s.dispatches ++ [dispatchTime g s]
    clock := dispatchTime g s + dur r.code
    lastRequestTime := dispatchTime g s + dur r.code }

/-- One iteration of the classification `for (const row of records)` loop
(part_000 lines 152–222): skip if the address is processed, else the
too-short placeholder, else the duplicate-content placeholder, else enrich. -/
def stepC (svc : String → ClassifyResp) (dur : String → ℚ) (g : ℚ)
    (s : CState) (r : CRecord) : CState :=
  if r.address ∈ s.processedAddresses then s
  else if r.code.length ≤ MIN_CODE_LENGTH then
    { s with rows := s.rows ++ [shortRow r] }
  else
    match lookupTruthy s.processedCodes r.code with
    | some orig => { s with rows := s.rows ++ [dupRow r orig] }
    | none => enrichState svc dur g s r

/-- The whole classification loop over the in-memory record list. -/
def runC (svc : String → ClassifyResp) (dur : String → ℚ) (g : ℚ) :
    CState → List CRecord → CState
  | s, [] => s
  | s, r :: rs => runC svc dur g (stepC svc dur g s r) rs

/-- Initial state of a classification run (part_000 lines 108–151):
`processedAddresses` holds the ledger loaded from the existing output,
`processedCodes` starts empty (in-run only), `lastRequestTime = 0`
(line 140), and the wall clock starts at `t0`. -/
def initC (ledger : List String) (t0 : ℚ) : CState :=
  { processedAddresses := ledger, processedCodes := [], rows := [],
    calls := [], dispatches := [], clock := t0, lastRequestTime := 0 }

/-- Embeds the progress-ledger load (part_000 lines 108–120): the address
column (`cols[1]`) of every data line of the existing output file, here
read off the structured rows (`block_number` and `address` cells are written
unquoted and comma-free, so the naive split recovers the address column). -/
def loadLedgerC (prior : List CRow) : List String :=
  prior.map CRow.address

/-! ### Fetch driver (get_code.js, `main`) -/

/-- One input row of the fetch stage (no `code` column). -/
structure FRecord where
  block_number : String
  address : String
  is_erc20 : String
  is_erc721 : String
deriving DecidableEq

/-- One output row of the fetch stage. -/
structure FRow where
  block_number : String
  address : String
  is_erc20 : String
  is_erc721 : String
  code : String
deriving DecidableEq

/-- Mutable state of the fetch `main` loop: the `processedAddresses` set,
the appended rows, the addresses sent to the service with their dispatch
times, the wall clock, and the limiter variables `startTime` / `callCount`
(get_code.js lines 106–107). -/
structure FState where
  processedAddresses : List String
  rows : List FRow
  calls : List String
  dispatches : List ℤ
  clock : ℤ
  startTime : ℤ
  callCount : Nat
deriving DecidableEq

/-- One iteration of the fetch loop (get_code.js lines 109–145).  The
service oracle `svc` stands for the value `fetchContractSource` eventually
returns for an address (`some source` or `null`); `dur` is the wall-clock
time that call takes.  The batch limiter: after `callCount` exceeds `R`,
sleep out the remainder of a second measured from `startTime`, then reset
(lines 117–125).  A `null` result appends no row and records nothing
(lines 142–144). -/
def stepF (svc : String → Option String) (dur : String → ℤ) (R : Nat)
    (s : FState) (r : FRecord) : FState :=
  if r.address ∈ s.processedAddresses then s
  else
    let cc := s.callCount + 1
    let dispatch :=
      if R < cc then
        (if s.clock - s.startTime < 1000 then s.startTime + 1000 else s.clock)
      else s.clock
    let st' := if R < cc then dispatch else s.startTime
    let cc' := if R < cc then 1 else cc
    let done := dispatch + dur r.address
    match svc r.address with
    | some src =>
      { processedAddresses := s.processedAddresses ++ [r.address]
        rows := s.rows ++ [{ block_number := r.block_number,
                             address := r.address, is_erc20 := r.is_erc20,
                             is_erc721 := r.is_erc721,
                             code := escapeNewlines src }]
        calls := s.calls ++ [r.address]
        dispatches := s.dispatches ++ [dispatch]
        clock := done, startTime := st', callCount := cc' }
    | none =>
      { s with calls := s.calls ++ [r.address]
               dispatches := s.dispatches ++ [dispatch]
               clock := done, startTime := st', callCount := cc' }

/-- The whole fetch loop over the in-memory record list. -/
def runF (svc : String → Option String) (dur : String → ℤ) (R : Nat) :
    FState → List FRecord → FState
  | s, [] => s
  | s, r :: rs => runF svc dur R (stepF svc dur R s r) rs

/-- Initial state of a fetch run (get_code.js lines 94–107): ledger loaded,
`callCount = 0`, `startTime` read from the clock at loop start. -/
def initF (ledger : List String) (t0 : ℤ) : FState :=
  { processedAddresses := ledger, rows := [], calls := [], dispatches := [],
    clock := t0, startTime := t0, callCount := 0 }

/-- Embeds `getProcessedAddresses` (get_code.js lines 14–29): the `address`
field of every row of the existing output. -/
def loadLedgerF (prior : List FRow) : List String :=
  prior.map FRow.address

/-- Number of dispatch times falling in the half-open sliding window
`[t, t + 1000)`. -/
def countInWindow (ts : List ℚ) (t : ℚ) : Nat :=
  ts.countP (fun x => decide (t ≤ x ∧ x < t + 1000))

/-- The same sliding-window count over the fetch stage's integer clock. -/
def countInWindowInt (ts : List ℤ) (t : ℤ) : Nat :=
  ts.countP (fun x => decide (t ≤ x ∧ x < t + 1000))

/-! ### Branch equations for the two step functions -/

theorem stepC_mem {svc dur g s r} (h : r.address ∈ s.processedAddresses) :
    stepC svc dur g s r = s := by
  simp [stepC, h]

theorem stepC_short {svc dur g s r} (h1 : r.address ∉ s.processedAddresses)
    (h2 : r.code.length ≤ MIN_CODE_LENGTH) :
    stepC svc dur g s r = { s with rows := s.rows ++ [shortRow r] } := by
  simp [stepC, h1, h2]

theorem stepC_dup {svc dur g s r k} (h1 : r.address ∉ s.processedAddresses)
    (h2 : ¬ r.code.length ≤ MIN_CODE_LENGTH)
    (h3 : lookupTruthy s.processedCodes r.code = some k) :
    stepC svc dur g s r = { s with rows := s.rows ++ [dupRow r k] } := by
  simp [stepC, h1, h2, h3]

theorem stepC_enrich {svc dur g s r} (h1 : r.address ∉ s.processedAddresses)
    (h2 : ¬ r.code.length ≤ MIN_CODE_LENGTH)
    (h3 : lookupTruthy s.processedCodes r.code = none) :
    stepC svc dur g s r = enrichState svc dur g s r := by
  simp [stepC, h1, h2, h3]

theorem stepF_mem {svc dur R s r} (h : r.address ∈ s.processedAddresses) :
    stepF svc dur R s r = s := by
  simp [stepF, h]

/-- Membership in `processedAddresses` is preserved by a classification step. -/
theorem stepC_processed_mono {svc dur g s r a}
    (h : a ∈ s.processedAddresses) :
    a ∈ (stepC svc dur g s r).processedAddresses := by
  by_cases hm : r.address ∈ s.processedAddresses
  · rw [stepC_mem hm]; exact h
  · by_cases hs : r.code.length ≤ MIN_CODE_LENGTH
    · rw [stepC_short hm hs]; exact h
    · cases h3 : lookupTruthy s.processedCodes r.code with
      | some k => rw [stepC_dup hm hs h3]; exact h
      | none =>
        rw [stepC_enrich hm hs h3]
        exact List.mem_append_left _ h

/-- Membership in `processedAddresses` is preserved by a fetch step. -/
theorem stepF_processed_mono {svc dur R s r a}
    (h : a ∈ s.processedAddresses) :
    a ∈ (stepF svc dur R s r).processedAddresses := by
  by_cases hm : r.address ∈ s.processedAddresses
  · rw [stepF_mem hm]; exact h
  · unfold stepF
    rw [if_neg hm]
    cases hsvc : svc r.address with
    | some src => simp [hsvc]; exact Or.inl h
    | none => simp [hsvc]; exact h

theorem escChars_cons_ne_nil (c : Char) (rest : List Char) :
    escChars (c :: rest) ≠ [] := by
  unfold escChars
  repeat' split
  all_goals simp

theorem escapeNewlines_ne_empty {s : String} (h : s ≠ "") :
    escapeNewlines s ≠ "" := by
  cases s with
  | mk data =>
    cases data with
    | nil => exact absurd rfl h
    | cons c rest =>
      unfold escapeNewlines
      intro hc
      have hdata : escChars (String.toList ⟨c :: rest⟩) = [] := by
        have := congrArg String.data hc
        simpa using this
      rw [show String.toList ⟨c :: rest⟩ = c :: rest from rfl] at hdata
      exact escChars_cons_ne_nil c rest hdata

/-- Backoff the fetch retry loop sleeps after a given transient outcome
(get_code.js lines 44, 53, 67). -/
def backoffMs : FetchResp → Nat
  | .netErr => 10000
  | _ => 3000

/-! ### Claim theorems -/

/-- C5: a record whose code length is at most `MIN_CODE_LENGTH`, with an
address not in the progress ledger, produces exactly the `TOO_SHORT`
placeholder row — empty content, empty score and reason cells, skip marker
`TOO_SHORT` — and the step makes no external call, records no dispatch and
leaves the clock untouched (no rate-limiter wait). -/
theorem skip_short_invariant (svc : String → ClassifyResp) (dur : String → ℚ)
    (g : ℚ) (s : CState) (r : CRecord)
    (h1 : r.address ∉ s.processedAddresses)
    (h2 : r.code.length ≤ MIN_CODE_LENGTH) :
    stepC svc dur g s r = { s with rows := s.rows ++ [shortRow r] } ∧
    (shortRow r).code = "" ∧ (shortRow r).artistic_score = "" ∧
    (shortRow r).artistic_reason = "" ∧
    (shortRow r).duplicate_of_address = "TOO_SHORT" ∧
    (stepC svc dur g s r).calls = s.calls ∧
    (stepC svc dur g s r).dispatches = s.dispatches ∧
    (stepC svc dur g s r).clock = s.clock := by
  refine ⟨stepC_short h1 h2, rfl, rfl, rfl, rfl, ?_, ?_, ?_⟩ <;>
    rw [stepC_short h1 h2]

/-- C5 witness: the skip-short theorem applied to a concrete 4-character
record against an empty ledger. -/
theorem skip_short_invariant_witness :
    stepC (fun _ => ClassifyResp.ok "2 | ok") (fun _ => (0 : ℚ)) 1000
        (initC [] 1000000) ⟨"100", "0xA", "true", "false", "tiny"⟩ =
      { initC [] 1000000 with
          rows := (initC [] 1000000).rows ++
            [shortRow ⟨"100", "0xA", "true", "false", "tiny"⟩] } ∧
    (shortRow ⟨"100", "0xA", "true", "false", "tiny"⟩).code = "" ∧
    (shortRow ⟨"100", "0xA", "true", "false", "tiny"⟩).artistic_score = "" ∧
    (shortRow ⟨"100", "0xA", "true", "false", "tiny"⟩).artistic_reason = "" ∧
    (shortRow ⟨"100", "0xA", "true", "false", "tiny"⟩).duplicate_of_address =
      "TOO_SHORT" ∧
    (stepC (fun _ => ClassifyResp.ok "2 | ok") (fun _ => (0 : ℚ)) 1000
        (initC [] 1000000) ⟨"100", "0xA", "true", "false", "tiny"⟩).calls =
      (initC [] 1000000).calls ∧
    (stepC (fun _ => ClassifyResp.ok "2 | ok") (fun _ => (0 : ℚ)) 1000
        (initC [] 1000000) ⟨"100", "0xA", "true", "false", "tiny"⟩).dispatches =
      (initC [] 1000000).dispatches ∧
    (stepC (fun _ => ClassifyResp.ok "2 | ok") (fun _ => (0 : ℚ)) 1000
        (initC [] 1000000) ⟨"100", "0xA", "true", "false", "tiny"⟩).clock =
      (initC [] 1000000).clock :=
  skip_short_invariant _ _ 1000 (initC [] 1000000)
    ⟨"100", "0xA", "true", "false", "tiny"⟩ (by decide) (by decide)

/-- C10: neither skip-placeholder branch (TOO_SHORT or duplicate-content)
adds the record's address to the in-memory processed set, and an input that
repeats a key with short content yields two output rows for that key in a
single run. -/
theorem skip_rows_leave_processed_unchanged :
    (∀ (svc : String → ClassifyResp) (dur : String → ℚ) (g : ℚ) s r,
      r.address ∉ s.processedAddresses → r.code.length ≤ MIN_CODE_LENGTH →
      (stepC svc dur g s r).processedAddresses = s.processedAddresses) ∧
    (∀ (svc : String → ClassifyResp) (dur : String → ℚ) (g : ℚ) s r k,
      r.address ∉ s.processedAddresses → ¬ r.code.length ≤ MIN_CODE_LENGTH →
      lookupTruthy s.processedCodes r.code = some k →
      (stepC svc dur g s r).processedAddresses = s.processedAddresses) ∧
    (runC (fun _ => ClassifyResp.ok "1 | plain") (fun _ => (0 : ℚ)) 1000
        (initC [] 1000000)
        [⟨"100", "0xA", "true", "false", "tiny"⟩,
         ⟨"100", "0xA", "true", "false", "tiny"⟩]).rows.map CRow.address =
      ["0xA", "0xA"] := by
  refine ⟨?_, ?_, by decide⟩
  · intro svc dur g s r h1 h2
    rw [stepC_short h1 h2]
  · intro svc dur g s r k h1 h2 h3
    rw [stepC_dup h1 h2 h3]

/-- C10 witness: the two placeholder branches applied at concrete states. -/
theorem skip_rows_leave_processed_unchanged_witness :
    (stepC (fun _ => ClassifyResp.ok "1 | plain") (fun _ => (0 : ℚ)) 1000
        (initC [] 1000000)
        ⟨"100", "0xA", "true", "false", "tiny"⟩).processedAddresses =
      (initC [] 1000000).processedAddresses ∧
    (stepC (fun _ => ClassifyResp.ok "1 | plain") (fun _ => (0 : ℚ)) 1000
        { initC [] 1000000 with
            processedCodes := [("abcdefghijklmnopqrstuvwxy", "0xB")] }
        ⟨"100", "0xA", "true", "false",
         "abcdefghijklmnopqrstuvwxy"⟩).processedAddresses =
      { initC [] 1000000 with
          processedCodes :=
            [("abcdefghijklmnopqrstuvwxy", "0xB")] }.processedAddresses :=
  ⟨skip_rows_leave_processed_unchanged.1 _ _ 1000 _ _ (by decide) (by decide),
   skip_rows_leave_processed_unchanged.2.1 _ _ 1000 _ _ "0xB" (by decide)
     (by decide) (by decide)⟩

/-- C4: when the service reply parses badly — field count other than two,
unparsable score, or integer score outside `[1, 3]` — the adapter returns
a null annotation with no retry, and the driver still records the record's
own (newline-escaped) content in the appended row, with an empty score
cell. -/
theorem parse_failure_downgrades (svc : String → ClassifyResp)
    (dur : String → ℚ) (g : ℚ) (s : CState) (r : CRecord) (text : String)
    (hsvc : svc r.code = ClassifyResp.ok text)
    (h1 : r.address ∉ s.processedAddresses)
    (h2 : ¬ r.code.length ≤ MIN_CODE_LENGTH)
    (h3 : lookupTruthy s.processedCodes r.code = none)
    (hfail : ((splitPipe (jsTrim text)).map (fun p => jsTrim p)).length ≠ 2 ∨
      jsParseInt (((splitPipe (jsTrim text)).map (fun p => jsTrim p)).headD "") =
        none ∨
      (∃ n, jsParseInt
          (((splitPipe (jsTrim text)).map (fun p => jsTrim p)).headD "") =
          some n ∧ (n < 1 ∨ 3 < n))) :
    getArtisticScoreAndReason (svc r.code) = (none, "") ∧
    (stepC svc dur g s r).rows = s.rows ++ [enrichRow r none ""] ∧
    (enrichRow r none "").code = escapeNewlines r.code ∧
    (enrichRow r none "").artistic_score = "" := by
  have hGA : getArtisticScoreAndReason (ClassifyResp.ok text) = (none, "") := by
    unfold getArtisticScoreAndReason
    rcases hp : (splitPipe (jsTrim text)).map (fun p => jsTrim p) with
      _ | ⟨p0, _ | ⟨p1, rest⟩⟩
    · simp [hp]
    · simp [hp]
    · rw [hp] at hfail
      cases rest with
      | cons q qs => simp [hp]
      | nil =>
        simp only [hp]
        rcases hfail with hlen | hnone | ⟨n, hsome, hrange⟩
        · simp at hlen
        · simp only [List.headD] at hnone
          simp [hnone]
        · simp only [List.headD] at hsome
          simp [hsome, if_pos hrange]
  refine ⟨by rw [hsvc]; exact hGA, ?_, rfl, rfl⟩
  rw [stepC_enrich h1 h2 h3]
  show s.rows ++ [enrichRow r (getArtisticScoreAndReason (svc r.code)).1
    (getArtisticScoreAndReason (svc r.code)).2] = _
  rw [hsvc, hGA]

/-- C4 witness: a reply with a single field (no pipe) downgrades to a null
score while the long concrete code is still written into the row. -/
theorem parse_failure_downgrades_witness :
    getArtisticScoreAndReason
        ((fun _ => ClassifyResp.ok "nonsense") "abcdefghijklmnopqrstuvwxy") =
      (none, "") ∧
    (stepC (fun _ => ClassifyResp.ok "nonsense") (fun _ => (0 : ℚ)) 1000
        (initC [] 1000000)
        ⟨"2", "0xa2", "false", "false", "abcdefghijklmnopqrstuvwxy"⟩).rows =
      (initC [] 1000000).rows ++
        [enrichRow ⟨"2", "0xa2", "false", "false", "abcdefghijklmnopqrstuvwxy"⟩
          none ""] ∧
    (enrichRow ⟨"2", "0xa2", "false", "false", "abcdefghijklmnopqrstuvwxy"⟩
        none "").code =
      escapeNewlines "abcdefghijklmnopqrstuvwxy" ∧
    (enrichRow ⟨"2", "0xa2", "false", "false", "abcdefghijklmnopqrstuvwxy"⟩
        none "").artistic_score = "" :=
  parse_failure_downgrades (fun _ => ClassifyResp.ok "nonsense")
    (fun _ => (0 : ℚ)) 1000 (initC [] 1000000)
    ⟨"2", "0xa2", "false", "false", "abcdefghijklmnopqrstuvwxy"⟩ "nonsense"
    rfl (by decide) (by decide) (by decide) (Or.inl (by decide))

/-- C6: if a record `r1` is fully enriched and the next record `r2` carries
identical content (and is not itself skipped by key), then `r2`'s output
row is a placeholder with empty content whose `duplicate_of_address` names
`r1`'s key; and a fresh run starts with an empty content index, so content
seen only in prior runs never triggers duplicate detection. -/
theorem duplicate_detection (svc : String → ClassifyResp) (dur : String → ℚ)
    (g : ℚ) (s : CState) (r1 r2 : CRecord)
    (h1 : r1.address ∉ s.processedAddresses)
    (h2 : ¬ r1.code.length ≤ MIN_CODE_LENGTH)
    (h3 : lookupTruthy s.processedCodes r1.code = none)
    (h4 : r2.code = r1.code)
    (h5 : r2.address ∉ s.processedAddresses)
    (h6 : r2.address ≠ r1.address)
    (h7 : r1.address ≠ "") :
    (runC svc dur g s [r1, r2]).rows =
      s.rows ++ [enrichRow r1 (getArtisticScoreAndReason (svc r1.code)).1
                   (getArtisticScoreAndReason (svc r1.code)).2,
                 dupRow r2 r1.address] ∧
    (dupRow r2 r1.address).code = "" ∧
    (dupRow r2 r1.address).duplicate_of_address = r1.address ∧
    ∀ (ledger : List String) (t0 : ℚ),
      (initC ledger t0).processedCodes = [] := by
  refine ⟨?_, rfl, rfl, fun ledger t0 => rfl⟩
  have hrun : runC svc dur g s [r1, r2] =
      stepC svc dur g (stepC svc dur g s r1) r2 := rfl
  rw [hrun, stepC_enrich h1 h2 h3]
  have hmem2 : r2.address ∉ (enrichState svc dur g s r1).processedAddresses := by
    show r2.address ∉ s.processedAddresses ++ [r1.address]
    intro hc
    rcases List.mem_append.mp hc with hc | hc
    · exact h5 hc
    · exact h6 (by simpa using hc)
  have hlen2 : ¬ r2.code.length ≤ MIN_CODE_LENGTH := by rw [h4]; exact h2
  have hlook2 : lookupTruthy (enrichState svc dur g s r1).processedCodes
      r2.code = some r1.address := by
    show lookupTruthy ((r1.code, r1.address) :: s.processedCodes) r2.code =
      some r1.address
    rw [lookupTruthy]
    rw [if_pos h4.symm, if_neg h7]
  rw [stepC_dup hmem2 hlen2 hlook2]
  show (enrichState svc dur g s r1).rows ++ [dupRow r2 r1.address] = _
  show (s.rows ++ [enrichRow r1 (getArtisticScoreAndReason (svc r1.code)).1
    (getArtisticScoreAndReason (svc r1.code)).2]) ++ [dupRow r2 r1.address] = _
  rw [List.append_assoc]
  rfl

/-- C6 witness: two concrete records with identical 25-character code; the
first is enriched, the second's row points back at the first. -/
theorem duplicate_detection_witness :
    (runC (fun _ => ClassifyResp.ok "2 | ok") (fun _ => (0 : ℚ)) 1000
        (initC [] 1000000)
        [⟨"2", "0xa2", "false", "false", "abcdefghijklmnopqrstuvwxy"⟩,
         ⟨"3", "0xa3", "false", "false", "abcdefghijklmnopqrstuvwxy"⟩]).rows =
      (initC [] 1000000).rows ++
        [enrichRow ⟨"2", "0xa2", "false", "false", "abcdefghijklmnopqrstuvwxy"⟩
           (getArtisticScoreAndReason
             ((fun _ => ClassifyResp.ok "2 | ok")
               ("abcdefghijklmnopqrstuvwxy" : String))).1
           (getArtisticScoreAndReason
             ((fun _ => ClassifyResp.ok "2 | ok")
               ("abcdefghijklmnopqrstuvwxy" : String))).2,
         dupRow ⟨"3", "0xa3", "false", "false", "abcdefghijklmnopqrstuvwxy"⟩
           "0xa2"] ∧
    (dupRow ⟨"3", "0xa3", "false", "false", "abcdefghijklmnopqrstuvwxy"⟩
        "0xa2").code = "" ∧
    (dupRow ⟨"3", "0xa3", "false", "false", "abcdefghijklmnopqrstuvwxy"⟩
        "0xa2").duplicate_of_address = "0xa2" ∧
    ∀ (ledger : List String) (t0 : ℚ),
      (initC ledger t0).processedCodes = [] :=
  duplicate_detection (fun _ => ClassifyResp.ok "2 | ok") (fun _ => (0 : ℚ))
    1000 (initC [] 1000000)
    ⟨"2", "0xa2", "false", "false", "abcdefghijklmnopqrstuvwxy"⟩
    ⟨"3", "0xa3", "false", "false", "abcdefghijklmnopqrstuvwxy"⟩
    (by decide) (by decide) (by decide) rfl (by decide) (by decide) (by decide)

/-- C1 counterexample: in the fetch stage a record whose source lookup
returns no contract is processed (exactly one external call is made) yet
zero output rows are appended — there is no placeholder row on an Empty
outcome. -/
theorem fetch_empty_appends_no_row :
    (runF (fun _ => none) (fun _ => (0 : ℤ)) 3 (initF [] 0)
        [⟨"1", "0xb1", "false", "false"⟩]).rows.length = 0 ∧
    (runF (fun _ => none) (fun _ => (0 : ℤ)) 3 (initF [] 0)
        [⟨"1", "0xb1", "false", "false"⟩]).calls.length = 1 := by
  decide

/-- C1 amended: in the classification stage every record not skipped as
already processed appends exactly one output row carrying its address; in
the fetch stage an Empty (no contract) outcome appends no row and does not
mark the address processed, while still consuming one external call. -/
theorem processed_record_row_emission :
    (∀ (svc : String → ClassifyResp) (dur : String → ℚ) (g : ℚ) s
      (r : CRecord), r.address ∉ s.processedAddresses →
      ∃ row, (stepC svc dur g s r).rows = s.rows ++ [row] ∧
        row.address = r.address) ∧
    (∀ (svc : String → Option String) (dur : String → ℤ) (R : Nat) s
      (r : FRecord), r.address ∉ s.processedAddresses →
      svc r.address = none →
      (stepF svc dur R s r).rows = s.rows ∧
      (stepF svc dur R s r).processedAddresses = s.processedAddresses ∧
      (stepF svc dur R s r).calls = s.calls ++ [r.address]) := by
  constructor
  · intro svc dur g s r h
    by_cases hs : r.code.length ≤ MIN_CODE_LENGTH
    · exact ⟨shortRow r, by rw [stepC_short h hs], rfl⟩
    · cases h3 : lookupTruthy s.processedCodes r.code with
      | some k => exact ⟨dupRow r k, by rw [stepC_dup h hs h3], rfl⟩
      | none =>
        exact ⟨enrichRow r (getArtisticScoreAndReason (svc r.code)).1
          (getArtisticScoreAndReason (svc r.code)).2,
          by rw [stepC_enrich h hs h3]; rfl, rfl⟩
  · intro svc dur R s r h hsvc
    unfold stepF
    rw [if_neg h, hsvc]
    exact ⟨rfl, rfl, rfl⟩

/-- C1 witness: each conjunct of the amended statement at a concrete input. -/
theorem processed_record_row_emission_witness :
    (∃ row, (stepC (fun _ => ClassifyResp.ok "2 | ok") (fun _ => (0 : ℚ))
        1000 (initC [] 1000000)
        ⟨"100", "0xA", "true", "false", "tiny"⟩).rows =
        (initC [] 1000000).rows ++ [row] ∧ row.address = "0xA") ∧
    ((stepF (fun _ => none) (fun _ => (0 : ℤ)) 3 (initF [] 0)
        ⟨"1", "0xb1", "false", "false"⟩).rows = (initF [] 0).rows ∧
     (stepF (fun _ => none) (fun _ => (0 : ℤ)) 3 (initF [] 0)
        ⟨"1", "0xb1", "false", "false"⟩).processedAddresses =
        (initF [] 0).processedAddresses ∧
     (stepF (fun _ => none) (fun _ => (0 : ℤ)) 3 (initF [] 0)
        ⟨"1", "0xb1", "false", "false"⟩).calls =
        (initF [] 0).calls ++ ["0xb1"]) :=
  ⟨processed_record_row_emission.1 _ _ 1000 _ _ (by decide),
   processed_record_row_emission.2 _ _ 3 _ _ (by decide) rfl⟩

/-- C3 counterexample: a thrown (transient) service error in the
classification adapter is not retried — the run immediately records a
degraded row with an empty score cell for the failing record, after exactly
one call. -/
theorem classify_error_not_retried :
    (runC (fun _ => ClassifyResp.err "socket hang up") (fun _ => (0 : ℚ))
        1000 (initC [] 1000000)
        [⟨"2", "0xa2", "false", "false",
          "abcdefghijklmnopqrstuvwxy"⟩]).rows.map CRow.artistic_score =
      [""] ∧
    (runC (fun _ => ClassifyResp.err "socket hang up") (fun _ => (0 : ℚ))
        1000 (initC [] 1000000)
        [⟨"2", "0xa2", "false", "false",
          "abcdefghijklmnopqrstuvwxy"⟩]).calls.length = 1 := by
  decide

/-- C3 amended: the source-fetch adapter retries every transient failure
(HTTP error, throttle signal, network fault) with the fixed per-kind
backoff and never returns on an all-transient trace (unbounded retry); the
classification adapter does not retry — a thrown error immediately yields a
null annotation and the driver records it as a degraded output row. -/
theorem transient_retry_policy :
    (∀ l : List FetchResp,
      (∀ x ∈ l, x = FetchResp.httpErr ∨ x = FetchResp.notOk ∨
        x = FetchResp.netErr) →
      (fetchContractSource l).1 = none ∧
      (fetchContractSource l).2 = (l.map backoffMs).sum) ∧
    (∀ msg, getArtisticScoreAndReason (ClassifyResp.err msg) = (none, "")) ∧
    (∀ (svc : String → ClassifyResp) (dur : String → ℚ) (g : ℚ) s
      (r : CRecord) msg, svc r.code = ClassifyResp.err msg →
      r.address ∉ s.processedAddresses → ¬ r.code.length ≤ MIN_CODE_LENGTH →
      lookupTruthy s.processedCodes r.code = none →
      (stepC svc dur g s r).rows = s.rows ++ [enrichRow r none ""]) := by
  refine ⟨?_, fun msg => rfl, ?_⟩
  · intro l
    induction l with
    | nil => exact fun _ => ⟨rfl, rfl⟩
    | cons x xs ih =>
      intro hl
      have hx := hl x (List.mem_cons_self x xs)
      have hxs := ih fun y hy => hl y (List.mem_cons_of_mem x hy)
      rcases hx with h | h | h <;> subst h <;>
        simp [fetchContractSource, backoffMs, hxs.1, hxs.2]
  · intro svc dur g s r msg hsvc h1 h2 h3
    rw [stepC_enrich h1 h2 h3]
    show s.rows ++ [enrichRow r (getArtisticScoreAndReason (svc r.code)).1
      (getArtisticScoreAndReason (svc r.code)).2] = _
    rw [hsvc]
    rfl

/-- C3 witness: the amended statement at a concrete all-transient trace and
a concrete erroring classification call. -/
theorem transient_retry_policy_witness :
    ((fetchContractSource [FetchResp.netErr, FetchResp.httpErr,
        FetchResp.notOk]).1 = none ∧
     (fetchContractSource [FetchResp.netErr, FetchResp.httpErr,
        FetchResp.notOk]).2 =
       ([FetchResp.netErr, FetchResp.httpErr, FetchResp.notOk].map
         backoffMs).sum) ∧
    getArtisticScoreAndReason (ClassifyResp.err "socket hang up") =
      (none, "") ∧
    (stepC (fun _ => ClassifyResp.err "socket hang up") (fun _ => (0 : ℚ))
        1000 (initC [] 1000000)
        ⟨"2", "0xa2", "false", "false", "abcdefghijklmnopqrstuvwxy"⟩).rows =
      (initC [] 1000000).rows ++
        [enrichRow ⟨"2", "0xa2", "false", "false", "abcdefghijklmnopqrstuvwxy"⟩
          none ""] :=
  ⟨transient_retry_policy.1 _ (by decide),
   transient_retry_policy.2.1 "socket hang up",
   transient_retry_policy.2.2 (fun _ => ClassifyResp.err "socket hang up")
     (fun _ => (0 : ℚ)) 1000 (initC [] 1000000)
     ⟨"2", "0xa2", "false", "false", "abcdefghijklmnopqrstuvwxy"⟩
     "socket hang up" rfl (by decide) (by decide) (by decide)⟩

/-- C7 counterexample: with a configured rate of 0 the fetch driver raises
no configuration error and does not stop — it processes the record,
dispatches one external call and appends its row. -/
theorem zero_rate_processes_record :
    (runF (fun _ => some "contract X") (fun _ => (0 : ℤ)) 0 (initF [] 0)
        [⟨"1", "0xb1", "false", "false"⟩]).calls = ["0xb1"] ∧
    (runF (fun _ => some "contract X") (fun _ => (0 : ℤ)) 0 (initF [] 0)
        [⟨"1", "0xb1", "false", "false"⟩]).rows.length = 1 := by
  decide

/-- C7 amended: neither stage validates the configured rate — the rates are
hard-coded positive constants, and with rate 0 the fetch driver still sends
every non-skipped record to the external service (the batch limiter merely
inserts waits); no error path exists for a non-positive rate. -/
theorem zero_rate_still_dispatches (svc : String → Option String)
    (dur : String → ℤ) (s : FState) (r : FRecord)
    (h : r.address ∉ s.processedAddresses) :
    (stepF svc dur 0 s r).calls = s.calls ++ [r.address] := by
  unfold stepF
  rw [if_neg h]
  cases hsvc : svc r.address with
  | none => rfl
  | some src => rfl

/-- C7 witness: the amended statement at a concrete record and state. -/
theorem zero_rate_still_dispatches_witness :
    (stepF (fun _ => some "contract X") (fun _ => (0 : ℤ)) 0 (initF [] 0)
        ⟨"1", "0xb1", "false", "false"⟩).calls =
      (initF [] 0).calls ++ ["0xb1"] :=
  zero_rate_still_dispatches _ _ (initF [] 0) ⟨"1", "0xb1", "false", "false"⟩
    (by decide)

/-! ### Per-run row accounting (for the at-most-once invariant) -/

/-- A classification step on an unprocessed record appends exactly one row
carrying the record's address, and grows the processed set by at most that
address. -/
theorem stepC_not_mem_row (svc : String → ClassifyResp) (dur : String → ℚ)
    (g : ℚ) (s : CState) (r : CRecord)
    (h : r.address ∉ s.processedAddresses) :
    ∃ row, row.address = r.address ∧
      (stepC svc dur g s r).rows = s.rows ++ [row] ∧
      ((stepC svc dur g s r).processedAddresses = s.processedAddresses ∨
       (stepC svc dur g s r).processedAddresses =
         s.processedAddresses ++ [r.address]) := by
  by_cases hs : r.code.length ≤ MIN_CODE_LENGTH
  · exact ⟨shortRow r, rfl, by rw [stepC_short h hs],
      by rw [stepC_short h hs]; exact Or.inl rfl⟩
  · cases h3 : lookupTruthy s.processedCodes r.code with
    | some k =>
      exact ⟨dupRow r k, rfl, by rw [stepC_dup h hs h3],
        by rw [stepC_dup h hs h3]; exact Or.inl rfl⟩
    | none =>
      exact ⟨enrichRow r (getArtisticScoreAndReason (svc r.code)).1
        (getArtisticScoreAndReason (svc r.code)).2, rfl,
        by rw [stepC_enrich h hs h3]; rfl,
        by rw [stepC_enrich h hs h3]; exact Or.inr rfl⟩

/-- A fetch step on an unprocessed record either appends nothing and leaves
the processed set unchanged (Empty), or appends one row with the record's
address and marks it processed. -/
theorem stepF_not_mem_row (svc : String → Option String) (dur : String → ℤ)
    (R : Nat) (s : FState) (r : FRecord)
    (h : r.address ∉ s.processedAddresses) :
    ((stepF svc dur R s r).rows = s.rows ∧
     (stepF svc dur R s r).processedAddresses = s.processedAddresses) ∨
    (∃ row : FRow, row.address = r.address ∧
      (stepF svc dur R s r).rows = s.rows ++ [row] ∧
      (stepF svc dur R s r).processedAddresses =
        s.processedAddresses ++ [r.address]) := by
  unfold stepF
  rw [if_neg h]
  cases hsvc : svc r.address with
  | none => exact Or.inl ⟨rfl, rfl⟩
  | some src =>
    exact Or.inr ⟨{ block_number := r.block_number, address := r.address,
                    is_erc20 := r.is_erc20, is_erc721 := r.is_erc721,
                    code := escapeNewlines src }, rfl, rfl, rfl⟩

/-- Rows appended by a classification run: their addresses form a sublist
of the input addresses, and none of them was in the starting processed
set. -/
theorem runC_rows_delta (svc : String → ClassifyResp) (dur : String → ℚ)
    (g : ℚ) (rs : List CRecord) : ∀ (s : CState),
    ∃ Δ, (runC svc dur g s rs).rows = s.rows ++ Δ ∧
      List.Sublist (Δ.map CRow.address) (rs.map CRecord.address) ∧
      ∀ row ∈ Δ, row.address ∉ s.processedAddresses := by
  induction rs with
  | nil =>
    intro s
    exact ⟨[], by simp [runC], by simp, by simp⟩
  | cons r rs ih =>
    intro s
    by_cases h : r.address ∈ s.processedAddresses
    · obtain ⟨Δ, h1, h2, h3⟩ := ih s
      refine ⟨Δ, ?_, h2.cons _, h3⟩
      show (runC svc dur g (stepC svc dur g s r) rs).rows = _
      rw [stepC_mem h]
      exact h1
    · obtain ⟨row, hra, hrows, hpa⟩ := stepC_not_mem_row svc dur g s r h
      obtain ⟨Δ, h1, h2, h3⟩ := ih (stepC svc dur g s r)
      refine ⟨row :: Δ, ?_, ?_, ?_⟩
      · show (runC svc dur g (stepC svc dur g s r) rs).rows = _
        rw [h1, hrows, List.append_assoc]
        rfl
      · rw [List.map_cons, hra]
        exact h2.cons₂ _
      · intro row' hmem
        rcases List.mem_cons.mp hmem with hmem | hmem
        · subst hmem; rw [hra]; exact h
        · intro hc
          apply h3 row' hmem
          rcases hpa with hpa | hpa
          · rw [hpa]; exact hc
          · rw [hpa]; exact List.mem_append_left _ hc

/-- Rows appended by a fetch run: their addresses form a sublist of the
input addresses, and none of them was in the starting processed set. -/
theorem runF_rows_delta (svc : String → Option String) (dur : String → ℤ)
    (R : Nat) (rs : List FRecord) : ∀ (s : FState),
    ∃ Δ, (runF svc dur R s rs).rows = s.rows ++ Δ ∧
      List.Sublist (Δ.map FRow.address) (rs.map FRecord.address) ∧
      ∀ row ∈ Δ, row.address ∉ s.processedAddresses := by
  induction rs with
  | nil =>
    intro s
    exact ⟨[], by simp [runF], by simp, by simp⟩
  | cons r rs ih =>
    intro s
    by_cases h : r.address ∈ s.processedAddresses
    · obtain ⟨Δ, h1, h2, h3⟩ := ih s
      refine ⟨Δ, ?_, h2.cons _, h3⟩
      show (runF svc dur R (stepF svc dur R s r) rs).rows = _
      rw [stepF_mem h]
      exact h1
    · obtain ⟨Δ, h1, h2, h3⟩ := ih (stepF svc dur R s r)
      rcases stepF_not_mem_row svc dur R s r h with ⟨hrows, hpa⟩ |
        ⟨row, hra, hrows, hpa⟩
      · refine ⟨Δ, ?_, h2.cons _, ?_⟩
        · show (runF svc dur R (stepF svc dur R s r) rs).rows = _
          rw [h1, hrows]
        · intro row' hmem hc
          exact h3 row' hmem (by rw [hpa]; exact hc)
      · refine ⟨row :: Δ, ?_, ?_, ?_⟩
        · show (runF svc dur R (stepF svc dur R s r) rs).rows = _
          rw [h1, hrows, List.append_assoc]
          rfl
        · rw [List.map_cons, hra]
          exact h2.cons₂ _
        · intro row' hmem
          rcases List.mem_cons.mp hmem with hmem | hmem
          · subst hmem; rw [hra]; exact h
          · intro hc
            exact h3 row' hmem (by rw [hpa]; exact List.mem_append_left _ hc)

/-- C2: with skip-already-processed enabled, a run never appends a row for
a key already present in the output it resumed from (regardless of input
ordering), and — provided the prior output and the input keys are each
duplicate-free — the resulting output file still has at most one row per
key; this holds for both the classification and the fetch stage. -/
theorem at_most_one_row_per_key :
    (∀ (svc : String → ClassifyResp) (dur : String → ℚ) (g : ℚ) (t0 : ℚ)
      (prior : List CRow) (records : List CRecord),
      (∀ row ∈ (runC svc dur g (initC (loadLedgerC prior) t0) records).rows,
        row.address ∉ prior.map CRow.address) ∧
      ((prior.map CRow.address).Nodup → (records.map CRecord.address).Nodup →
        ((prior ++ (runC svc dur g (initC (loadLedgerC prior) t0)
          records).rows).map CRow.address).Nodup)) ∧
    (∀ (svc : String → Option String) (dur : String → ℤ) (R : Nat) (t0 : ℤ)
      (prior : List FRow) (records : List FRecord),
      (∀ row ∈ (runF svc dur R (initF (loadLedgerF prior) t0) records).rows,
        row.address ∉ prior.map FRow.address) ∧
      ((prior.map FRow.address).Nodup → (records.map FRecord.address).Nodup →
        ((prior ++ (runF svc dur R (initF (loadLedgerF prior) t0)
          records).rows).map FRow.address).Nodup)) := by
  constructor
  · intro svc dur g t0 prior records
    obtain ⟨Δ, h1, h2, h3⟩ :=
      runC_rows_delta svc dur g records (initC (loadLedgerC prior) t0)
    have hrows : (runC svc dur g (initC (loadLedgerC prior) t0)
        records).rows = Δ := by simpa [initC] using h1
    have hfresh : ∀ row ∈ Δ, row.address ∉ prior.map CRow.address := h3
    constructor
    · rw [hrows]; exact hfresh
    · intro hp hr
      rw [hrows, List.map_append, List.nodup_append]
      exact ⟨hp, List.Nodup.sublist h2 hr, fun a ha hb => by
        obtain ⟨row, hrow, rfl⟩ := List.mem_map.mp hb
        exact hfresh row hrow ha⟩
  · intro svc dur R t0 prior records
    obtain ⟨Δ, h1, h2, h3⟩ :=
      runF_rows_delta svc dur R records (initF (loadLedgerF prior) t0)
    have hrows : (runF svc dur R (initF (loadLedgerF prior) t0)
        records).rows = Δ := by simpa [initF] using h1
    have hfresh : ∀ row ∈ Δ, row.address ∉ prior.map FRow.address := h3
    constructor
    · rw [hrows]; exact hfresh
    · intro hp hr
      rw [hrows, List.map_append, List.nodup_append]
      exact ⟨hp, List.Nodup.sublist h2 hr, fun a ha hb => by
        obtain ⟨row, hrow, rfl⟩ := List.mem_map.mp hb
        exact hfresh row hrow ha⟩

/-- C2 witness: resuming over a one-row prior output with a two-record
input (one already-completed key, one fresh) leaves the output
duplicate-free. -/
theorem at_most_one_row_per_key_witness :
    (([(⟨"1", "0xA", "true", "false", "c", "2", "ok", ""⟩ : CRow)] ++
        (runC (fun _ => ClassifyResp.ok "2 | ok") (fun _ => (0 : ℚ)) 1000
          (initC (loadLedgerC
            [⟨"1", "0xA", "true", "false", "c", "2", "ok", ""⟩]) 1000000)
          [⟨"1", "0xA", "true", "false", "tiny"⟩,
           ⟨"2", "0xB", "false", "false", "tiny"⟩]).rows).map
      CRow.address).Nodup :=
  (at_most_one_row_per_key.1 (fun _ => ClassifyResp.ok "2 | ok")
      (fun _ => (0 : ℚ)) 1000 1000000
      [⟨"1", "0xA", "true", "false", "c", "2", "ok", ""⟩]
      [⟨"1", "0xA", "true", "false", "tiny"⟩,
       ⟨"2", "0xB", "false", "false", "tiny"⟩]).2 (by decide) (by decide)

/-! ### Duplicate rows reference real enrichments -/

/-- Invariant tying the in-run content index to the rows appended so far:
every truthy binding `content ↦ k` is witnessed by an enrichment row for
`k` with nonempty recorded content, and every already-written duplicate row
points at such a row. -/
def dupTargetsEnriched (s : CState) : Prop :=
  (∀ c k, lookupTruthy s.processedCodes c = some k →
    ∃ row' ∈ s.rows, row'.address = k ∧ row'.code ≠ "" ∧
      row'.duplicate_of_address = "") ∧
  (∀ row ∈ s.rows, row.duplicate_of_address ≠ "" →
    row.duplicate_of_address ≠ "TOO_SHORT" →
    ∃ row' ∈ s.rows, row'.address = row.duplicate_of_address ∧
      row'.code ≠ "" ∧ row'.duplicate_of_address = "")

/-- One classification step preserves `dupTargetsEnriched`. -/
theorem stepC_preserves_dupTargets (svc : String → ClassifyResp)
    (dur : String → ℚ) (g : ℚ) (s : CState) (r : CRecord)
    (hInv : dupTargetsEnriched s) :
    dupTargetsEnriched (stepC svc dur g s r) := by
  obtain ⟨hIdx, hRows⟩ := hInv
  by_cases hm : r.address ∈ s.processedAddresses
  · rw [stepC_mem hm]; exact ⟨hIdx, hRows⟩
  by_cases hs : r.code.length ≤ MIN_CODE_LENGTH
  · rw [stepC_short hm hs]
    constructor
    · intro c k hk
      obtain ⟨row', hmem, hprops⟩ := hIdx c k hk
      exact ⟨row', List.mem_append_left _ hmem, hprops⟩
    · intro row hmem hne hnshort
      rcases List.mem_append.mp hmem with hmem | hmem
      · obtain ⟨row', hmem', hprops⟩ := hRows row hmem hne hnshort
        exact ⟨row', List.mem_append_left _ hmem', hprops⟩
      · have hrow : row = shortRow r := by simpa using hmem
        subst hrow
        exact absurd rfl hnshort
  cases h3 : lookupTruthy s.processedCodes r.code with
  | some k =>
    rw [stepC_dup hm hs h3]
    constructor
    · intro c k' hk
      obtain ⟨row', hmem, hprops⟩ := hIdx c k' hk
      exact ⟨row', List.mem_append_left _ hmem, hprops⟩
    · intro row hmem hne hnshort
      rcases List.mem_append.mp hmem with hmem | hmem
      · obtain ⟨row', hmem', hprops⟩ := hRows row hmem hne hnshort
        exact ⟨row', List.mem_append_left _ hmem', hprops⟩
      · have hrow : row = dupRow r k := by simpa using hmem
        subst hrow
        obtain ⟨row', hmem', hprops⟩ := hIdx r.code k h3
        exact ⟨row', List.mem_append_left _ hmem', hprops⟩
  | none =>
    rw [stepC_enrich hm hs h3]
    have hcode_ne : r.code ≠ "" := fun he => hs (by rw [he]; decide)
    have hpc : (enrichState svc dur g s r).processedCodes =
        (r.code, r.address) :: s.processedCodes := rfl
    have hrw : (enrichState svc dur g s r).rows =
        s.rows ++ [enrichRow r (getArtisticScoreAndReason (svc r.code)).1
          (getArtisticScoreAndReason (svc r.code)).2] := rfl
    constructor
    · intro c k hk
      rw [hpc] at hk
      rw [hrw]
      by_cases hc : r.code = c
      · have hk' : (if r.address = "" then none else some r.address) =
            some k := by
          rw [lookupTruthy, if_pos hc] at hk
          exact hk
        by_cases hra : r.address = ""
        · rw [if_pos hra] at hk'
          exact absurd hk' (by simp)
        · rw [if_neg hra] at hk'
          have hkr : r.address = k := Option.some.inj hk'
          refine ⟨enrichRow r (getArtisticScoreAndReason (svc r.code)).1
            (getArtisticScoreAndReason (svc r.code)).2,
            List.mem_append_right _ (by simp), ?_, ?_, rfl⟩
          · exact hkr
          · exact escapeNewlines_ne_empty hcode_ne
      · have hk' : lookupTruthy s.processedCodes c = some k := by
          rw [lookupTruthy, if_neg hc] at hk
          exact hk
        obtain ⟨row', hmem, hprops⟩ := hIdx c k hk'
        exact ⟨row', List.mem_append_left _ hmem, hprops⟩
    · intro row hmem hne hnshort
      rw [hrw] at hmem
      rw [hrw]
      rcases List.mem_append.mp hmem with hmem | hmem
      · obtain ⟨row', hmem', hprops⟩ := hRows row hmem hne hnshort
        exact ⟨row', List.mem_append_left _ hmem', hprops⟩
      · have hrow : row = enrichRow r (getArtisticScoreAndReason
            (svc r.code)).1 (getArtisticScoreAndReason (svc r.code)).2 := by
          simpa using hmem
        subst hrow
        exact absurd rfl hne

/-- A whole classification run preserves `dupTargetsEnriched`. -/
theorem runC_preserves_dupTargets (svc : String → ClassifyResp)
    (dur : String → ℚ) (g : ℚ) :
    ∀ (rs : List CRecord) (s : CState), dupTargetsEnriched s →
      dupTargetsEnriched (runC svc dur g s rs)
  | [], _, h => h
  | r :: rs, s, h =>
    runC_preserves_dupTargets svc dur g rs _
      (stepC_preserves_dupTargets svc dur g s r h)

/-- C9: in a single classification run, every output row whose
`duplicate_of_address` names a key (is neither empty nor the `TOO_SHORT`
marker) points at a row of the same run that is a real enrichment: same
address, nonempty recorded content and an empty `duplicate_of_address`.
Content from prior runs cannot be a target because the index starts
empty. -/
theorem duplicate_rows_point_at_enrichments (svc : String → ClassifyResp)
    (dur : String → ℚ) (g : ℚ) (ledger : List String) (t0 : ℚ)
    (records : List CRecord) :
    ∀ row ∈ (runC svc dur g (initC ledger t0) records).rows,
      row.duplicate_of_address ≠ "" →
      row.duplicate_of_address ≠ "TOO_SHORT" →
      ∃ row' ∈ (runC svc dur g (initC ledger t0) records).rows,
        row'.address = row.duplicate_of_address ∧ row'.code ≠ "" ∧
        row'.duplicate_of_address = "" := by
  have hinit : dupTargetsEnriched (initC ledger t0) := by
    constructor
    · intro c k hk
      have hnone : lookupTruthy (initC ledger t0).processedCodes c = none :=
        rfl
      rw [hnone] at hk
      exact Option.noConfusion hk
    · intro row hmem
      have hnil : (initC ledger t0).rows = [] := rfl
      rw [hnil] at hmem
      exact absurd hmem (List.not_mem_nil row)
  exact (runC_preserves_dupTargets svc dur g records _ hinit).2

/-- C9 witness: a concrete run whose second record duplicates the first's
content; the theorem applied to the resulting duplicate row. -/
theorem duplicate_rows_point_at_enrichments_witness :
    ∃ row' ∈ (runC (fun _ => ClassifyResp.err "boom") (fun _ => (0 : ℚ))
        1000 (initC [] 1000000)
        [⟨"2", "0xa2", "false", "false", "abcdefghijklmnopqrstuvwxy"⟩,
         ⟨"3", "0xa3", "false", "false", "abcdefghijklmnopqrstuvwxy"⟩]).rows,
      row'.address = (dupRow ⟨"3", "0xa3", "false", "false",
        "abcdefghijklmnopqrstuvwxy"⟩ "0xa2").duplicate_of_address ∧
      row'.code ≠ "" ∧ row'.duplicate_of_address = "" :=
  duplicate_rows_point_at_enrichments (fun _ => ClassifyResp.err "boom")
    (fun _ => (0 : ℚ)) 1000 [] 1000000
    [⟨"2", "0xa2", "false", "false", "abcdefghijklmnopqrstuvwxy"⟩,
     ⟨"3", "0xa3", "false", "false", "abcdefghijklmnopqrstuvwxy"⟩]
    (dupRow ⟨"3", "0xa3", "false", "false", "abcdefghijklmnopqrstuvwxy"⟩
      "0xa2") (by decide) (by decide) (by decide)

/-! ### Sliding-window bound for the interval rate limiter -/

/-- From the head of a gap chain, every later element is at least one gap
away. -/
theorem gapChain_head_le {g : ℚ} (hg : 0 ≤ g) :
    ∀ {a : ℚ} {l : List ℚ}, List.Chain' (fun x y => x + g ≤ y) (a :: l) →
      ∀ x ∈ l, a + g ≤ x := by
  intro a l
  induction l generalizing a with
  | nil =>
    intro _ x hx
    exact absurd hx (List.not_mem_nil x)
  | cons b l ih =>
    intro hc x hx
    have hab : a + g ≤ b := (List.chain'_cons.mp hc).1
    have hbl := (List.chain'_cons.mp hc).2
    rcases List.mem_cons.mp hx with rfl | hx
    · exact hab
    · have hbx : b + g ≤ x := ih hbl x hx
      linarith

/-- Counting elements of a gap chain inside the half-open window
`[t, t + 1000)`: if every element is at least `u` and the window top is at
most `u + k·g`, at most `k` elements fit. -/
theorem window_count_aux {g : ℚ} (hg : 0 ≤ g) :
    ∀ (l : List ℚ), List.Chain' (fun x y => x + g ≤ y) l →
      ∀ (u : ℚ) (k : Nat) (t : ℚ), (∀ x ∈ l, u ≤ x) →
      t + 1000 ≤ u + k * g → countInWindow l t ≤ k := by
  intro l
  induction l with
  | nil =>
    intro _ u k t _ _
    simp [countInWindow]
  | cons a l ih =>
    intro hc u k t hu ht
    have hcl : List.Chain' (fun x y => x + g ≤ y) l := hc.tail
    by_cases hwin : t ≤ a ∧ a < t + 1000
    · have hua : u ≤ a := hu a (List.mem_cons_self a l)
      have hk : k ≠ 0 := by
        intro h0
        subst h0
        have hcontra : t + 1000 ≤ u := by
          simpa using ht
        linarith [hwin.2]
      obtain ⟨k', rfl⟩ : ∃ k', k = k' + 1 :=
        ⟨k - 1, (Nat.succ_pred_eq_of_pos (Nat.pos_of_ne_zero hk)).symm⟩
      have hrest : ∀ x ∈ l, a + g ≤ x := gapChain_head_le hg hc
      have hcount : countInWindow l t ≤ k' := by
        refine ih hcl (a + g) k' t hrest ?_
        have hkg : u + ((k' + 1 : Nat) : ℚ) * g = u + (k' : ℚ) * g + g := by
          push_cast
          ring
        calc t + 1000 ≤ u + ((k' + 1 : Nat) : ℚ) * g := ht
          _ = u + (k' : ℚ) * g + g := hkg
          _ ≤ a + (k' : ℚ) * g + g := by linarith
          _ = (a + g) + (k' : ℚ) * g := by ring
      have hcons : countInWindow (a :: l) t = countInWindow l t + 1 := by
        simp [countInWindow, List.countP_cons, hwin]
      rw [hcons]
      exact Nat.add_le_add_right hcount 1
    · have hcons : countInWindow (a :: l) t = countInWindow l t := by
        simp [countInWindow, List.countP_cons, hwin]
      rw [hcons]
      exact ih hcl u k t (fun x hx => hu x (List.mem_cons_of_mem a hx)) ht

/-- A gap chain with gap `1000 / R` has at most `R` elements in any sliding
1-second window. -/
theorem window_count_le (R : Nat) (hR : 0 < R) (l : List ℚ)
    (hc : List.Chain' (fun x y => x + 1000 / (R : ℚ) ≤ y) l) (t : ℚ) :
    countInWindow l t ≤ R := by
  have hg : (0 : ℚ) ≤ 1000 / (R : ℚ) := by positivity
  induction l with
  | nil => simp [countInWindow]
  | cons a l ih =>
    by_cases hwin : t ≤ a ∧ a < t + 1000
    · obtain ⟨R', rfl⟩ : ∃ R', R = R' + 1 :=
        ⟨R - 1, (Nat.succ_pred_eq_of_pos hR).symm⟩
      have hrest := gapChain_head_le hg hc
      have hcount : countInWindow l t ≤ R' := by
        refine window_count_aux hg l hc.tail
          (a + 1000 / ((R' + 1 : Nat) : ℚ)) R' t hrest ?_
        have hne : ((R' : ℚ) + 1) ≠ 0 := by positivity
        have hsum : (a + 1000 / ((R' + 1 : Nat) : ℚ)) +
            (R' : ℚ) * (1000 / ((R' + 1 : Nat) : ℚ)) = a + 1000 := by
          push_cast
          field_simp
          ring
        rw [hsum]
        linarith [hwin.1]
      have hcons : countInWindow (a :: l) t = countInWindow l t + 1 := by
        simp [countInWindow, List.countP_cons, hwin]
      rw [hcons]
      exact Nat.add_le_add_right hcount 1
    · have hcons : countInWindow (a :: l) t = countInWindow l t := by
        simp [countInWindow, List.countP_cons, hwin]
      rw [hcons]
      exact ih hc.tail

/-- Timing invariant of the classification loop: recorded dispatch times
are at least one interval apart, and all precede `lastRequestTime`. -/
def dispatchInv (g : ℚ) (s : CState) : Prop :=
  List.Chain' (fun x y => x + g ≤ y) s.dispatches ∧
  ∀ d ∈ s.dispatches, d ≤ s.lastRequestTime

/-- One classification step preserves the timing invariant (nonnegative
interval and call durations). -/
theorem stepC_preserves_dispatchInv (svc : String → ClassifyResp)
    (dur : String → ℚ) {g : ℚ} (hg : 0 ≤ g) (hdur : ∀ c, 0 ≤ dur c)
    (s : CState) (r : CRecord) (hInv : dispatchInv g s) :
    dispatchInv g (stepC svc dur g s r) := by
  obtain ⟨hchain, hbound⟩ := hInv
  by_cases hm : r.address ∈ s.processedAddresses
  · rw [stepC_mem hm]; exact ⟨hchain, hbound⟩
  by_cases hs : r.code.length ≤ MIN_CODE_LENGTH
  · rw [stepC_short hm hs]; exact ⟨hchain, hbound⟩
  cases h3 : lookupTruthy s.processedCodes r.code with
  | some k => rw [stepC_dup hm hs h3]; exact ⟨hchain, hbound⟩
  | none =>
    rw [stepC_enrich hm hs h3]
    have hd : (enrichState svc dur g s r).dispatches =
        s.dispatches ++ [dispatchTime g s] := rfl
    have hl : (enrichState svc dur g s r).lastRequestTime =
        dispatchTime g s + dur r.code := rfl
    have hDax : s.lastRequestTime + g ≤ dispatchTime g s := le_max_right _ _
    constructor
    · rw [hd, List.chain'_append]
      refine ⟨hchain, List.chain'_singleton _, ?_⟩
      intro x hx y hy
      have hxl : x ∈ s.dispatches := List.mem_of_mem_getLast? hx
      have hyD : dispatchTime g s = y := by simpa using hy
      subst hyD
      have hxb := hbound x hxl
      linarith
    · rw [hd, hl]
      intro d hdmem
      rcases List.mem_append.mp hdmem with hdmem | hdmem
      · have h1 := hbound d hdmem
        have h2 := hdur r.code
        linarith
      · have hdD : d = dispatchTime g s := by simpa using hdmem
        subst hdD
        have h2 := hdur r.code
        linarith

/-- A whole classification run preserves the timing invariant. -/
theorem runC_preserves_dispatchInv (svc : String → ClassifyResp)
    (dur : String → ℚ) {g : ℚ} (hg : 0 ≤ g) (hdur : ∀ c, 0 ≤ dur c) :
    ∀ (rs : List CRecord) (s : CState), dispatchInv g s →
      dispatchInv g (runC svc dur g s rs)
  | [], _, h => h
  | r :: rs, s, h =>
    runC_preserves_dispatchInv svc dur hg hdur rs _
      (stepC_preserves_dispatchInv svc dur hg hdur s r h)

/-- C8 amended, classification side: with interval `1000 / R` the loop
dispatches at most `R ≤ R + 1` external calls in any sliding 1-second
window, for any record list, service behaviour and nonnegative call
durations. -/
theorem classify_rate_window_bound (R : Nat) (hR : 0 < R)
    (svc : String → ClassifyResp) (dur : String → ℚ)
    (hdur : ∀ c, 0 ≤ dur c) (ledger : List String) (t0 : ℚ)
    (records : List CRecord) (t : ℚ) :
    countInWindow (runC svc dur (1000 / (R : ℚ)) (initC ledger t0)
      records).dispatches t ≤ R + 1 := by
  have hg : (0 : ℚ) ≤ 1000 / (R : ℚ) := by positivity
  have hinit : dispatchInv (1000 / (R : ℚ)) (initC ledger t0) := by
    constructor
    · exact List.chain'_nil
    · intro d hd
      have hnil : (initC ledger t0).dispatches = [] := rfl
      rw [hnil] at hd
      exact absurd hd (List.not_mem_nil d)
  have hinv := runC_preserves_dispatchInv svc dur hg hdur records _ hinit
  exact le_trans (window_count_le R hR _ hinv.1 t) (Nat.le_succ R)

/-- C8 witness: the window bound at rate 1 on a concrete one-record run. -/
theorem classify_rate_window_bound_witness :
    countInWindow (runC (fun _ => ClassifyResp.err "boom")
      (fun _ => (0 : ℚ)) (1000 / ((1 : Nat) : ℚ)) (initC [] 1000000)
      [⟨"2", "0xa2", "false", "false",
        "abcdefghijklmnopqrstuvwxy"⟩]).dispatches 0 ≤ 1 + 1 :=
  classify_rate_window_bound 1 (by decide) (fun _ => ClassifyResp.err "boom")
    (fun _ => (0 : ℚ)) (fun c => le_refl 0) [] 1000000
    [⟨"2", "0xa2", "false", "false", "abcdefghijklmnopqrstuvwxy"⟩] 0

/-- C8 counterexample: the fetch stage's batch limiter does not bound
sliding windows — with rate 3 and a slow first call, five dispatches land
in the window `[2000, 3000)`, exceeding `R + 1 = 4`. -/
theorem fetch_rate_window_exceeded :
    countInWindowInt (runF (fun _ => some "contract X")
        (fun a => if a = "0xb1" then 2000 else 0) 3 (initF [] 0)
        [⟨"1", "0xb1", "false", "false"⟩, ⟨"2", "0xb2", "false", "false"⟩,
         ⟨"3", "0xb3", "false", "false"⟩, ⟨"4", "0xb4", "false", "false"⟩,
         ⟨"5", "0xb5", "false", "false"⟩,
         ⟨"6", "0xb6", "false", "false"⟩]).dispatches 2000 = 5 ∧
    3 + 1 < 5 := by
  decide

end OnchainCodework
